import Mathlib

/-!
Verification of the concurrent download manager of `httper`
(`client/download`: `download.go`, `model.go`, `checksumverify.go`,
`options.go`, `queue.go`, `queue_result.go`, plus the empty-path check in
`client/client.go`).

The Go code is shallowly embedded:
* Go `error` values become the inductive `GoErr`; `errors.Is` becomes
  `errorIs`; `errors.Join` becomes `joinErrs` (binary right fold, which has
  the same `errors.Is` semantics as Go's slice-based join node).
* `Handle` (download.go) becomes the pure function `handleWithOpts` /
  `handle`, parameterised by an `Env` of I/O outcomes (stat result, temp
  creation, read outcomes, cancellation point, sync/close/rename outcomes)
  and a `World` recording the destination path's entry and this call's
  temp file.
* The `Queue` of queue.go becomes a small-step transition system
  (`TaskStep` / `QStep`), one task per `Start`ed goroutine.
* `Result.Add` (queue_result.go) plus the option plumbing of options.go
  become `resultAdd`; the injected adder (`Client.DownloadAsync`) is not
  under the sources and is modelled from the spec (see `downloadAsync`).
-/

namespace Httper

/-- Go error values, as built by this package: sentinel errors
(`errors.New`), single-wrap `fmt.Errorf("...: %w", err)`, double-wrap
`fmt.Errorf("%w: %w", e1, e2)`, and the package's `download.Error`
struct (`Detail` + wrapped `Err`). -/
inductive GoErr where
  | base : String → GoErr
  | wrapf : String → GoErr → GoErr
  | wrap2 : GoErr → GoErr → GoErr
  | structured : String → GoErr → GoErr
  deriving DecidableEq, Repr

/-- Model of `errors.Is(e, t)`: equality at each level of the unwrap tree.
`wrap2` unwraps to both children (Go's multi-`%w` errors expose
`Unwrap() []error`). -/
def errorIs : GoErr → GoErr → Bool
  | e@(.base _), t => e = t
  | e@(.wrapf _ e'), t => e = t || errorIs e' t
  | e@(.wrap2 a b), t => e = t || errorIs a t || errorIs b t
  | e@(.structured _ e'), t => e = t || errorIs e' t

/-- Model of `errors.Join(errs...)` for a list of non-nil errors: `nil` when the
list is empty. A right fold of two-child nodes; `errors.Is` traverses it
exactly as it traverses Go's slice-based join node. -/
def joinErrs : List GoErr → Option GoErr
  | [] => none
  | [e] => some e
  | e :: es =>
    match joinErrs es with
    | none => some e
    | some j => some (.wrap2 e j)

/-- Sentinel `download.ErrContentLengthMismatch` (model.go). -/
def ErrContentLengthMismatch : GoErr := .base "content length mismatch"

/-- Sentinel `download.ErrChecksumMismatch` (model.go). -/
def ErrChecksumMismatch : GoErr := .base "checksum mismatch"

/-- Sentinel `download.ErrDownloadCancelled` (model.go). -/
def ErrDownloadCancelled : GoErr := .base "download cancelled"

/-- Sentinel `download.ErrGroupShutdown` (model.go). -/
def ErrGroupShutdown : GoErr := .base "group is shut down"

/-- Sentinel `context.Canceled`. -/
def ContextCanceled : GoErr := .base "context canceled"

/-- Sentinel `context.DeadlineExceeded`. -/
def ContextDeadlineExceeded : GoErr := .base "context deadline exceeded"

/-! ## Transfer executor: `Handle` (download.go) -/

/-- A filesystem entry at the destination path: a regular file with its
byte content (bytes as `Nat`, meaningful mod 256) or a directory. -/
inductive Entry where
  | file : List Nat → Entry
  | dir : Entry
  deriving DecidableEq, Repr

/-- The filesystem state this call can observe and modify: the entry at
the destination path (none = absent) and the temp file created by this
call (none = absent). -/
structure World where
  dest : Option Entry
  temp : Option (List Nat)
  deriving DecidableEq, Repr

/-- Outcome of `os.Stat(destPath)`: success (a file or directory exists
and is statable), failure with `fs.ErrNotExist`, or any other failure
(e.g. permission denied). `Handle` only ever tests `err == nil`. -/
inductive StatRes where
  | ok
  | failNotExist
  | failOther
  deriving DecidableEq, Repr

/-- What the underlying reader does after its successful chunks:
report end of stream, or fail with an error. -/
inductive ReadTail where
  | eof
  | readErr : GoErr → ReadTail
  deriving DecidableEq, Repr

/-- The I/O environment of one `Handle` call: the outcome the operating
system and the stream give to each side effect the code performs.
`chunks` are the successful reads of the underlying reader (in order),
followed by `tail`. `cancelAt = some c` means the call's context becomes
done just before read number `c` (0-based) and stays done;
`ctxDeadline` selects which error `ctx.Err()` reports
(`context.DeadlineExceeded` instead of `context.Canceled`). -/
structure Env where
  stat : StatRes
  createTempOk : Bool
  chunks : List (List Nat)
  tail : ReadTail
  cancelAt : Option Nat
  ctxDeadline : Bool
  syncOk : Bool
  closeOk : Bool
  renameOk : Bool
  deriving DecidableEq, Repr

/-- What `ctx.Err()` returns once the context is done. -/
def Env.ctxErr (env : Env) : GoErr :=
  if env.ctxDeadline then ContextDeadlineExceeded else ContextCanceled

/-- Model of `checksumVerifier` (checksumverify.go): a running hash plus the
expected hex digest. The hash is abstracted as a function from the
accumulated written bytes to the digest bytes (`hash.Hash` is
deterministic in what was written; `Sum(nil)` of the writes so far). -/
structure ChecksumVerifier where
  hashFn : List Nat → List Nat
  expected : String

/-- One hex digit, lowercase (`encoding/hex`). -/
def hexDigit (n : Nat) : Char :=
  if n < 10 then Char.ofNat (48 + n) else Char.ofNat (87 + n)

/-- Model of `hex.EncodeToString` over bytes (each taken mod 256). -/
def hexEncode (bs : List Nat) : String :=
  String.mk (bs.flatMap fun b => [hexDigit (b % 256 / 16), hexDigit (b % 16)])

/-- Model of `checksumVerifier.Verify` (checksumverify.go), including the nil
receiver path: a nil verifier always passes; otherwise compare the
hex-encoded digest of the written bytes with the expected string and
build a `download.Error` wrapping `ErrChecksumMismatch` on mismatch. -/
def verifyChecksum (v : Option ChecksumVerifier) (written : List Nat) : Option GoErr :=
  match v with
  | none => none
  | some v =>
    let actual := hexEncode (v.hashFn written)
    if actual = v.expected then none
    else some (.structured ("expected " ++ v.expected ++ ", got " ++ actual) ErrChecksumMismatch)

/-- The resolved `options` struct of options.go. -/
structure DlOptions where
  checksum : Option ChecksumVerifier
  progress : Bool
  skipExisting : Bool

/-- The zero value of `options`. -/
def DlOptions.zero : DlOptions := ⟨none, false, false⟩

/-- The exported option constructors of options.go. `withChecksum`'s
hash argument is `none` when the caller passes a nil `hash.Hash`. -/
inductive DlOption where
  | withChecksum : Option (List Nat → List Nat) → String → DlOption
  | withProgress
  | withSkipExisting

/-- Applying one option function to the options struct (options.go). -/
def applyOption (o : DlOption) (opts : DlOptions) : Except GoErr DlOptions :=
  match o with
  | .withChecksum none _ => .error (.base "hash must not be nil")
  | .withChecksum (some h) expected =>
    if expected = "" then .error (.base "expected checksum must not be empty")
    else .ok { opts with checksum := some ⟨h, expected⟩ }
  | .withProgress => .ok { opts with progress := true }
  | .withSkipExisting => .ok { opts with skipExisting := true }

/-- The option-application loop at the top of `Handle`: apply in order,
abort at the first failure (which `Handle` wraps as "applying option"). -/
def applyOptions : List DlOption → DlOptions → Except GoErr DlOptions
  | [], opts => .ok opts
  | o :: os, opts =>
    match applyOption o opts with
    | .error e => .error e
    | .ok opts' => applyOptions os opts'

/-- Model of `io.Copy` out of the `contextReader`-wrapped stream: the bytes
written before the copy stopped, and the copy's error (none = clean EOF).
Read number `k` first checks the context (done from read `cancelAt`
onward; such a read returns `ctx.Err()` without touching the stream),
then consumes chunk `k`, or at `k = chunks.length` the tail outcome. -/
def copyResult (env : Env) : List Nat × Option GoErr :=
  match env.cancelAt with
  | some c =>
    if c ≤ env.chunks.length then
      ((env.chunks.take c).flatten, some env.ctxErr)
    else
      (env.chunks.flatten,
        match env.tail with
        | .eof => none
        | .readErr e => some e)
  | none =>
    (env.chunks.flatten,
      match env.tail with
      | .eof => none
      | .readErr e => some e)

/-- How many reads reach the underlying stream during the copy (the
reads the `contextReader` short-circuits do not count; the final
EOF/error read does). -/
def copyUnderlyingReads (env : Env) : Nat :=
  match env.cancelAt with
  | some c => min c (env.chunks.length + 1)
  | none => env.chunks.length + 1

/-- The observable outcome of one `Handle` call: the returned error, the
final filesystem state, whether a temp file was ever created, and how
many reads reached the input stream. -/
structure HandleRes where
  err : Option GoErr
  world : World
  tempCreated : Bool
  ulReads : Nat
  deriving Repr

/-- The body of `Handle` (download.go) after option application, over
resolved options `o`. Mirrors the source step for step:
skip-if-exists check (`os.Stat` error compared with nil only), temp file
creation, `io.Copy` through the optional checksum tee and progress
writer (neither changes the bytes), the `context.Canceled` test on a
copy error, the content-length check, `Verify`, then sync/close/rename;
the deferred cleanup removes the temp file on every non-successful
return. -/
def handleWithOpts (o : DlOptions) (env : Env) (contentLength : Int) (w : World) : HandleRes :=
  if o.skipExisting ∧ env.stat = .ok then
    { err := none, world := w, tempCreated := false, ulReads := 0 }
  else if env.createTempOk = false then
    { err := some (.wrapf "creating temp file" (.base "create temp failed")),
      world := w, tempCreated := false, ulReads := 0 }
  else
    let written := (copyResult env).1
    let reads := copyUnderlyingReads env
    match (copyResult env).2 with
    | some e =>
      if errorIs e ContextCanceled then
        { err := some (.wrap2 ErrDownloadCancelled e),
          world := { w with temp := none }, tempCreated := true, ulReads := reads }
      else
        { err := some (.wrapf "copying file body" e),
          world := { w with temp := none }, tempCreated := true, ulReads := reads }
    | none =>
      if contentLength ≥ 0 ∧ (written.length : Int) ≠ contentLength then
        { err := some (.structured
            ("expected " ++ toString contentLength ++ " bytes, got " ++ toString written.length)
            ErrContentLengthMismatch),
          world := { w with temp := none }, tempCreated := true, ulReads := reads }
      else
        match verifyChecksum o.checksum written with
        | some e =>
          { err := some e, world := { w with temp := none },
            tempCreated := true, ulReads := reads }
        | none =>
          if env.syncOk = false then
            { err := some (.wrapf "syncing temp file" (.base "sync failed")),
              world := { w with temp := none }, tempCreated := true, ulReads := reads }
          else if env.closeOk = false then
            { err := some (.wrapf "closing temp file" (.base "close failed")),
              world := { w with temp := none }, tempCreated := true, ulReads := reads }
          else if env.renameOk = false then
            { err := some (.wrapf "renaming temp file" (.base "rename failed")),
              world := { w with temp := none }, tempCreated := true, ulReads := reads }
          else
            { err := none, world := { dest := some (.file written), temp := none },
              tempCreated := true, ulReads := reads }

/-- Model of `Handle` (download.go): apply the option functions, then run the
body. `destPath` is carried to make explicit that `Handle` never
branches on it (in particular there is no empty-path check; the path
only feeds `Stat`, `CreateTemp` and `Rename`, whose outcomes `env`
models). -/
def handle (env : Env) (contentLength : Int) (destPath : String)
    (optFns : List DlOption) (w : World) : HandleRes :=
  match applyOptions optFns DlOptions.zero with
  | .error e =>
    { err := some (.wrapf "applying option" e), world := w,
      tempCreated := false, ulReads := 0 }
  | .ok o => handleWithOpts o env contentLength w

/-- Outcome of `Client.Download` (client.go): either the configuration
error returned before the request is executed, or the result of running
the request and handing the body to `Handle`. -/
inductive ClientDlRes where
  | configError : GoErr → ClientDlRes
  | ran : HandleRes → ClientDlRes

/-- Model of `Client.Download` (client.go): reject an empty destination path
before executing anything, otherwise execute the request and stream the
body through `Handle` (status-code validation and the "download:" /
"exec fn:" wrapping of `c.exec` are outside the download manager and
elided; a handed-over validated response is assumed, as the spec's §6
boundary states). -/
def clientDownload (destPath : String) (env : Env) (contentLength : Int)
    (optFns : List DlOption) (w : World) : ClientDlRes :=
  if destPath = "" then .configError (.base "destPath must not be empty")
  else .ran (handle env contentLength destPath optFns w)

/-! ## Queue: the concurrency group (queue.go) -/

/-- Where a `Start`ed goroutine is in the body of `Queue.Start`:
at the admission select (`gate`), past it holding its slot when gated
(`admitted`, just before the shutdown check), inside `fn` (`running`),
or exited with its recorded terminal error (`done`). -/
inductive Phase where
  | gate
  | admitted
  | running
  | done : Option GoErr → Phase
  deriving DecidableEq, Repr

/-- One task of the group: its phase, whether its private context is
done, which error `ctx.Err()` reports then, and the error its work
function would return if run. -/
structure QTask where
  phase : Phase
  cancelled : Bool
  ctxE : GoErr
  workErr : Option GoErr
  deriving DecidableEq, Repr

/-- The state shared by all tasks of a `Queue`: the semaphore capacity
(`none` when `maxConcurrent <= 0`, in which case `sem` is nil), the
number of held slots, the atomic shutdown flag, and the mutex-protected
error list. -/
structure Shared where
  cap : Option Nat
  used : Nat
  shutdown : Bool
  errs : List GoErr
  deriving DecidableEq, Repr

/-- Model of `NewQueue` (queue.go): a semaphore exists only for a positive limit. -/
def newQueueCap (maxConcurrent : Int) : Option Nat :=
  if maxConcurrent > 0 then some maxConcurrent.toNat else none

/-- The initial shared state of `NewQueue(maxConcurrent)`. -/
def newQueue (maxConcurrent : Int) : Shared :=
  { cap := newQueueCap maxConcurrent, used := 0, shutdown := false, errs := [] }

/-- Release the slot held by an exiting task (the deferred
`<-g.sem`); a no-op when there is no semaphore. -/
def releaseSlot (s : Shared) : Shared :=
  match s.cap with
  | none => s
  | some _ => { s with used := s.used - 1 }

/-- Model of `Queue.recordErr` (queue_result.go): append under the mutex. -/
def recordErr (s : Shared) (e : GoErr) : Shared :=
  { s with errs := s.errs ++ [e] }

/-- Record the work function's result as `Queue.Start` does: only
non-nil errors are recorded. -/
def recordOpt (s : Shared) : Option GoErr → Shared
  | none => s
  | some e => recordErr s e

/-- One interleaving step of a single goroutine of `Queue.Start`
(queue.go), acting on the shared state and its own task record.
The admission select offers only two cases — a free slot or the task's
own context being done — so those are the only transitions out of
`gate` when a semaphore exists; the shutdown flag is read only *after*
admission. -/
inductive TaskStep : Shared → QTask → Shared → QTask → Prop where
  | gateNoSem {s t} :
      s.cap = none → t.phase = .gate →
      TaskStep s t s { t with phase := .admitted }
  | gateAcquire {s t n} :
      s.cap = some n → s.used < n → t.phase = .gate →
      TaskStep s t { s with used := s.used + 1 } { t with phase := .admitted }
  | gateCtxDone {s t n} :
      s.cap = some n → t.cancelled = true → t.phase = .gate →
      TaskStep s t (recordErr s t.ctxE) { t with phase := .done (some t.ctxE) }
  | shutdownHit {s t} :
      s.shutdown = true → t.phase = .admitted →
      TaskStep s t (recordErr (releaseSlot s) ErrGroupShutdown)
        { t with phase := .done (some ErrGroupShutdown) }
  | beginWork {s t} :
      s.shutdown = false → t.phase = .admitted →
      TaskStep s t s { t with phase := .running }
  | finishWork {s t} :
      t.phase = .running →
      TaskStep s t (recordOpt (releaseSlot s) t.workErr)
        { t with phase := .done t.workErr }

/-- A whole-system step: one task takes a `TaskStep`, or `Shutdown()`
stores the flag, or one task's `Cancel()` fires. -/
inductive QStep : Shared × List QTask → Shared × List QTask → Prop where
  | work {s ts s'} (i : Nat) (t t' : QTask) :
      ts.get? i = some t → TaskStep s t s' t' →
      QStep (s, ts) (s', ts.set i t')
  | callShutdown {s ts} :
      QStep (s, ts) ({ s with shutdown := true }, ts)
  | callCancel {s ts} (i : Nat) (t : QTask) :
      ts.get? i = some t →
      QStep (s, ts) (s, ts.set i { t with cancelled := true })

/-- Reachability in the queue's transition system. -/
def QReach : Shared × List QTask → Shared × List QTask → Prop :=
  Relation.ReflTransGen QStep

/-- A task holding a semaphore slot (when a semaphore exists): it has
been admitted and has not yet exited. -/
def isHolder (t : QTask) : Bool :=
  match t.phase with
  | .admitted => true
  | .running => true
  | _ => false

/-- A task currently executing its work function. -/
def isRunning (t : QTask) : Bool :=
  match t.phase with
  | .running => true
  | _ => false

/-- The terminal error a task has recorded, if it exited with one. -/
def doneErrOf (t : QTask) : Option GoErr :=
  match t.phase with
  | .done (some e) => some e
  | _ => none

/-- The terminal errors of the tasks that exited with one. -/
def doneErrs (ts : List QTask) : List GoErr := ts.filterMap doneErrOf

/-- The slot-accounting invariant of a gated queue: the `used` counter
equals the number of slot-holding tasks and never exceeds the capacity. -/
def GateInv (c : Shared × List QTask) : Prop :=
  ∀ n, c.1.cap = some n → c.1.used = c.2.countP isHolder ∧ c.1.used ≤ n

/-- The error-aggregation invariant: the queue's error list is exactly
the terminal errors of the failed tasks, up to order. -/
def ErrInv (c : Shared × List QTask) : Prop :=
  c.1.errs.Perm (doneErrs c.2)

/-- A fresh task about to run work `w`, whose context would report
`context.Canceled` if cancelled. -/
def gateTask (w : Option GoErr) : QTask :=
  { phase := .gate, cancelled := false, ctxE := ContextCanceled, workErr := w }

/-- A task that ran its work to completion and exited with its result. -/
def finishedTask (w : Option GoErr) : QTask :=
  { phase := .done w, cancelled := false, ctxE := ContextCanceled, workErr := w }

/-- The fate, once the shutdown flag is up, of task `i` (whose context
error is `cE`) if it has not yet passed the post-admission shutdown
check: it can still sit at the gate or just past it, or exit with the
group-shutdown error or its own cancellation error — but it can never
be running its work function. -/
def ShutdownFrozen (i : Nat) (cE : GoErr) (c : Shared × List QTask) : Prop :=
  c.1.shutdown = true ∧ ∀ t, c.2.get? i = some t → t.ctxE = cE ∧
    (t.phase = .gate ∨ t.phase = .admitted ∨
      t.phase = .done (some ErrGroupShutdown) ∨ t.phase = .done (some cE))

/-! ## Result.Add and the batch options (queue_result.go, options.go) -/

/-- The options seen by the async path (`Options` of options.go, the
variant with the `Group` field), reduced to what the batch plumbing
touches: the assigned queue, identified by a number. -/
structure QOptions where
  group : Option Nat
  deriving DecidableEq, Repr

/-- The caller-suppliable options of the async path: the exported
`WithBatch(maxConcurrent)`, or any other option, abstracted to whether
applying it fails (no other option touches `Group`). -/
inductive QOption where
  | batch : Int → QOption
  | other : Option GoErr → QOption
  deriving DecidableEq, Repr

/-- The error `WithBatch` returns when the group is already set
(options.go). -/
def errWithBatchInAdd : GoErr := .base "WithBatch cannot be used with Result.Add"

/-- Applying one async option (options.go): `WithBatch` fails if a group
is already set and otherwise installs a fresh queue (identified by
`freshId`); other options fail or succeed per their own validation and
leave the group alone. -/
def applyQOption (freshId : Nat) (o : QOption) (opts : QOptions) : Except GoErr QOptions :=
  match o with
  | .batch _ =>
    if opts.group.isSome then .error errWithBatchInAdd
    else .ok { opts with group := some freshId }
  | .other none => .ok opts
  | .other (some e) => .error e

/-- Option application in order, aborting at the first failure. -/
def applyQOptions (freshId : Nat) : List QOption → QOptions → Except GoErr QOptions
  | [], opts => .ok opts
  | o :: os, opts =>
    match applyQOption freshId o opts with
    | .error e => .error e
    | .ok opts' => applyQOptions freshId os opts'

/-- What the injected adder reports back to `Result.Add`. -/
inductive AdderRes where
  | failed : GoErr → AdderRes
  | started : Option Nat → AdderRes
  deriving DecidableEq, Repr

/-- Modelled from the spec: `Client.DownloadAsync`, the function behind
the `Adder` injected into `Result` (its definition is not under the
sources; only its declaration in queue.go, its callers and its tests
are). Per §4.3 and §9 of the spec it applies the supplied option
functions in order, collects the first failure and aborts — returning
that error without starting any transfer — and otherwise launches the
download in the resolved options' queue. -/
def downloadAsync (freshId : Nat) (initial : QOptions) (optFns : List QOption) : AdderRes :=
  match applyQOptions freshId optFns initial with
  | .error e => .failed e
  | .ok o => .started o.group

/-- The observable state of a `Result` right after `Add` returns:
whether its completion channel is already closed, and the error `Err()`
reports once the channel is closed. -/
structure ResultObs where
  doneClosed : Bool
  err : Option GoErr
  deriving DecidableEq, Repr

/-- The outcome of one `Result.Add` call: the owning queue's error list
after the call, the returned `Result`, and whether a transfer was
launched. -/
structure AddOutcome where
  errs : List GoErr
  res : ResultObs
  started : Bool
  deriving DecidableEq, Repr

/-- Model of `Result.Add` (queue_result.go): call the adder with
`withBatch(r.group)` prepended to the caller's options — the unexported
`withBatch` sets the group unconditionally, so the adder starts from
`group = some parentGroup` — and on an adder error record it into the
group's error list and return a pre-failed `Result` whose completion
channel is already closed. -/
def resultAdd (parentGroup : Nat) (freshId : Nat) (errs : List GoErr)
    (optFns : List QOption) : AddOutcome :=
  match downloadAsync freshId { group := some parentGroup } optFns with
  | .failed e =>
    { errs := errs ++ [e], res := { doneClosed := true, err := some e }, started := false }
  | .started _ =>
    { errs := errs, res := { doneClosed := false, err := none }, started := true }

/-! ## Concrete fixtures used to instantiate the theorems -/

/-- A benign environment: destination absent, temp creation succeeds,
the stream yields `[1,2]` then `[3]` then EOF, no cancellation, and
sync/close/rename all succeed. -/
def envOK : Env :=
  { stat := .failNotExist, createTempOk := true, chunks := [[1, 2], [3]],
    tail := .eof, cancelAt := none, ctxDeadline := false,
    syncOk := true, closeOk := true, renameOk := true }

/-- An empty filesystem: no destination entry, no temp file. -/
def w0 : World := { dest := none, temp := none }

/-! ## Lemmas about the error model -/

theorem errorIs_refl (e : GoErr) : errorIs e e = true := by
  cases e <;> simp [errorIs]

theorem joinErrs_eq_none_iff (es : List GoErr) : joinErrs es = none ↔ es = [] := by
  cases es with
  | nil => simp [joinErrs]
  | cons a as =>
    cases as with
    | nil => simp [joinErrs]
    | cons b bs =>
      constructor
      · intro h
        rcases hj : joinErrs (b :: bs) with _ | j <;> simp [joinErrs, hj] at h
      · intro h; cases h

theorem errorIs_joinErrs_mem {es : List GoErr} {e : GoErr} (h : e ∈ es) :
    ∃ j, joinErrs es = some j ∧ errorIs j e = true := by
  induction es with
  | nil => cases h
  | cons a as ih =>
    cases as with
    | nil =>
      rcases List.mem_singleton.mp h with rfl
      exact ⟨e, rfl, errorIs_refl e⟩
    | cons b bs =>
      rcases List.mem_cons.mp h with rfl | hmem
      · rcases hj : joinErrs (b :: bs) with _ | j
        · exact absurd ((joinErrs_eq_none_iff _).mp hj) (by simp)
        · exact ⟨.wrap2 e j, by simp [joinErrs, hj], by simp [errorIs, errorIs_refl]⟩
      · rcases ih hmem with ⟨j, hj, hje⟩
        refine ⟨.wrap2 a j, by simp [joinErrs, hj], ?_⟩
        simp [errorIs, hje]

/-! ## Option application lemmas -/

theorem applyOption_skip_mono {o : DlOption} {opts opts' : DlOptions}
    (h : applyOption o opts = .ok opts') (hs : opts.skipExisting = true) :
    opts'.skipExisting = true := by
  cases o with
  | withChecksum hf e =>
    cases hf with
    | none => simp [applyOption] at h
    | some f =>
      by_cases he : e = "" <;> simp [applyOption, he] at h <;> simp [← h, hs]
  | withProgress => simp [applyOption] at h; simp [← h, hs]
  | withSkipExisting => simp [applyOption] at h; simp [← h]

theorem applyOption_skip_set {opts opts' : DlOptions}
    (h : applyOption .withSkipExisting opts = .ok opts') :
    opts'.skipExisting = true := by
  simp [applyOption] at h; simp [← h]

theorem applyOptions_skip_of_mem {os : List DlOption} {opts opts' : DlOptions}
    (h : applyOptions os opts = .ok opts') (hmem : DlOption.withSkipExisting ∈ os) :
    opts'.skipExisting = true := by
  induction os generalizing opts with
  | nil => cases hmem
  | cons o os ih =>
    simp only [applyOptions] at h
    rcases ha : applyOption o opts with e | opts₁ <;> rw [ha] at h
    · cases h
    · rcases List.mem_cons.mp hmem with rfl | hmem'
      · -- the head sets the flag; the tail keeps it set
        have h₁ := applyOption_skip_set ha
        clear ha hmem ih
        induction os generalizing opts₁ with
        | nil => simp only [applyOptions] at h; cases h; exact h₁
        | cons o₂ os₂ ih₂ =>
          simp only [applyOptions] at h
          rcases ha₂ : applyOption o₂ opts₁ with e₂ | opts₂ <;> rw [ha₂] at h
          · cases h
          · exact ih₂ opts₂ h (applyOption_skip_mono ha₂ h₁)
      · exact ih h hmem'

/-! ## C10: the skip-if-exists path -/

theorem copyResult_stat (env : Env) (x : StatRes) :
    copyResult { env with stat := x } = copyResult env := rfl

theorem copyUnderlyingReads_stat (env : Env) (x : StatRes) :
    copyUnderlyingReads { env with stat := x } = copyUnderlyingReads env := rfl

/-- C10: with skip-existing requested (and the options applying cleanly),
`Handle`'s skip path triggers exactly when `os.Stat` on the destination
succeeds — it then returns success without creating a temp file or
reading the stream, whatever entry (file or directory) sits at the
destination — and any `Stat` failure, non-existence or otherwise
(e.g. permission denied), makes the full download proceed exactly as it
would for a missing destination, with no error reported for the failed
`Stat`. -/
theorem handle_skipExisting_iff_stat_ok (env : Env) (cl : Int) (p : String)
    (os : List DlOption) (o : DlOptions) (w : World)
    (happly : applyOptions os DlOptions.zero = .ok o)
    (hmem : DlOption.withSkipExisting ∈ os) :
    (env.stat = .ok →
      handle env cl p os w =
        { err := none, world := w, tempCreated := false, ulReads := 0 }) ∧
    (env.stat ≠ .ok →
      handle env cl p os w = handle { env with stat := .failNotExist } cl p os w) := by
  have hskip : o.skipExisting = true := applyOptions_skip_of_mem happly hmem
  constructor
  · intro hstat
    simp [handle, happly, handleWithOpts, hskip, hstat]
  · intro hstat
    simp only [handle, happly]
    have h₁ : ¬(o.skipExisting = true ∧ env.stat = .ok) := by
      rintro ⟨-, h⟩; exact hstat h
    have h₂ : ¬(o.skipExisting = true ∧
        ({ env with stat := .failNotExist } : Env).stat = .ok) := by
      rintro ⟨-, h⟩; cases h
    simp only [handleWithOpts, if_neg h₁, if_neg h₂,
      copyResult_stat env .failNotExist, copyUnderlyingReads_stat env .failNotExist]

/-- C10 witness: a directory sits at the destination, `Stat` succeeds,
skip-existing is set: `Handle` returns success, reads nothing and
creates nothing; and with a permission-style `Stat` failure it behaves
exactly as with a missing destination. -/
theorem handle_skipExisting_iff_stat_ok_witness :
    (handle { envOK with stat := .ok } (-1) "p" [.withSkipExisting]
        { dest := some .dir, temp := none } =
      { err := none, world := { dest := some .dir, temp := none },
        tempCreated := false, ulReads := 0 }) ∧
    (handle { envOK with stat := .failOther } (-1) "p" [.withSkipExisting] w0 =
      handle { { envOK with stat := .failOther } with stat := .failNotExist } (-1) "p"
        [.withSkipExisting] w0) := by
  constructor
  · exact (handle_skipExisting_iff_stat_ok { envOK with stat := .ok } (-1) "p"
      [.withSkipExisting] { checksum := none, progress := false, skipExisting := true }
      { dest := some .dir, temp := none } (by simp [applyOptions, applyOption, DlOptions.zero]) (by simp)).1 rfl
  · exact (handle_skipExisting_iff_stat_ok { envOK with stat := .failOther } (-1) "p"
      [.withSkipExisting] { checksum := none, progress := false, skipExisting := true }
      w0 (by simp [applyOptions, applyOption, DlOptions.zero]) (by simp)).2 (by simp [envOK])

/-! ## C8: the content-length check -/

theorem verifyChecksum_some_shape {v : Option ChecksumVerifier} {bs : List Nat} {e : GoErr}
    (h : verifyChecksum v bs = some e) :
    ∃ d, e = .structured d ErrChecksumMismatch := by
  cases v with
  | none => simp [verifyChecksum] at h
  | some v =>
    simp only [verifyChecksum] at h
    split at h
    · cases h
    · exact ⟨_, (Option.some_injective _ h).symm⟩

/-- C8: when the copy completes cleanly, a known non-negative declared
length that differs from the byte count makes `Handle` return a
`download.Error` wrapping `ErrContentLengthMismatch` and discard the
temp file; a negative declared length (the unknown sentinel) disables
the check entirely — no error `Handle` then returns can match
`ErrContentLengthMismatch`. -/
theorem handle_contentLength_check (env : Env) (cl : Int) (p : String)
    (os : List DlOption) (o : DlOptions) (w : World)
    (happly : applyOptions os DlOptions.zero = .ok o)
    (hcopy : (copyResult env).2 = none) :
    (cl ≥ 0 → ((copyResult env).1.length : Int) ≠ cl →
      ¬(o.skipExisting = true ∧ env.stat = .ok) → env.createTempOk = true →
      (handle env cl p os w).err = some (.structured
          ("expected " ++ toString cl ++ " bytes, got " ++ toString (copyResult env).1.length)
          ErrContentLengthMismatch) ∧
        errorIs (.structured
          ("expected " ++ toString cl ++ " bytes, got " ++ toString (copyResult env).1.length)
          ErrContentLengthMismatch) ErrContentLengthMismatch = true ∧
        (handle env cl p os w).world = { w with temp := none }) ∧
    (cl < 0 → ∀ e, (handle env cl p os w).err = some e →
      errorIs e ErrContentLengthMismatch = false) := by
  constructor
  · intro hcl hne hskip htemp
    have htemp' : ¬(env.createTempOk = false) := by simp [htemp]
    simp only [handle, happly, handleWithOpts, if_neg hskip, if_neg htemp', hcopy,
      if_pos (And.intro hcl hne)]
    simp [errorIs, ErrContentLengthMismatch]
  · intro hcl e he
    simp only [handle, happly, handleWithOpts] at he
    by_cases hskip : o.skipExisting = true ∧ env.stat = .ok
    · simp [if_pos hskip] at he
    by_cases htemp : env.createTempOk = false
    · rw [if_neg hskip, if_pos htemp] at he
      cases Option.some.inj he
      simp [errorIs, ErrContentLengthMismatch]
    rw [if_neg hskip, if_neg htemp] at he
    rw [hcopy] at he
    have hlen : ¬(cl ≥ 0 ∧ ((copyResult env).1.length : Int) ≠ cl) := by
      rintro ⟨h₁, -⟩; omega
    rw [if_neg hlen] at he
    rcases hv : verifyChecksum o.checksum (copyResult env).1 with _ | e'
    · rw [hv] at he
      by_cases hsync : env.syncOk = false
      · rw [if_pos hsync] at he
        cases Option.some.inj he
        simp [errorIs, ErrContentLengthMismatch]
      rw [if_neg hsync] at he
      by_cases hclose : env.closeOk = false
      · rw [if_pos hclose] at he
        cases Option.some.inj he
        simp [errorIs, ErrContentLengthMismatch]
      rw [if_neg hclose] at he
      by_cases hren : env.renameOk = false
      · rw [if_pos hren] at he
        cases Option.some.inj he
        simp [errorIs, ErrContentLengthMismatch]
      · rw [if_neg hren] at he
        simp at he
    · rw [hv] at he
      rcases verifyChecksum_some_shape hv with ⟨d, rfl⟩
      cases Option.some.inj he
      simp [errorIs, ErrChecksumMismatch, ErrContentLengthMismatch]

/-- C8 witness: three streamed bytes against a declared length of 2
yield the mismatch error; against the unknown sentinel -1 the transfer
succeeds with no length check. -/
theorem handle_contentLength_check_witness :
    ((handle envOK 2 "p" [] w0).err = some (.structured "expected 2 bytes, got 3"
        ErrContentLengthMismatch) ∧
      errorIs (.structured "expected 2 bytes, got 3" ErrContentLengthMismatch)
        ErrContentLengthMismatch = true ∧
      (handle envOK 2 "p" [] w0).world = { w0 with temp := none }) ∧
    errorIs ((handle envOK (-1) "p" [] w0).err.getD (.base "")) ErrContentLengthMismatch = false := by
  constructor
  · exact (handle_contentLength_check envOK 2 "p" [] DlOptions.zero w0 rfl (by decide)).1
      (by decide) (by decide) (by decide) rfl
  · have h := (handle_contentLength_check envOK (-1) "p" [] DlOptions.zero w0 rfl
      (by decide)).2 (by decide)
    rcases he : (handle envOK (-1) "p" [] w0).err with _ | e
    · simp [he, errorIs, ErrContentLengthMismatch]
    · simpa [he] using h e he

/-! ## C7: checksum round-trip -/

/-- C7: with a checksum verifier configured, in an otherwise healthy
transfer (skip path not taken, temp creation / sync / close / rename
succeed, copy completes cleanly, declared length unknown or matching):
an expected string equal to the hex encoding of the configured hash of
the streamed bytes lets `Handle` succeed and publish the file, while any
other expected string makes `Handle` return a `download.Error` wrapping
`ErrChecksumMismatch` and leaves the destination untouched (no file
created) and the temp file removed; and with no verifier configured the
verification step always passes (`Verify` on the absent verifier
returns nil). -/
theorem handle_checksum_roundtrip (h : List Nat → List Nat) (exp : String)
    (pr sk : Bool) (env : Env) (cl : Int) (w : World)
    (hskip : ¬(sk = true ∧ env.stat = .ok)) (htemp : env.createTempOk = true)
    (hcopy : (copyResult env).2 = none)
    (hlen : ¬(cl ≥ 0 ∧ (((copyResult env).1.length : Int) ≠ cl)))
    (hsync : env.syncOk = true) (hclose : env.closeOk = true)
    (hren : env.renameOk = true) :
    (exp = hexEncode (h (copyResult env).1) →
      handleWithOpts ⟨some ⟨h, exp⟩, pr, sk⟩ env cl w =
        { err := none, world := { dest := some (.file (copyResult env).1), temp := none },
          tempCreated := true, ulReads := copyUnderlyingReads env }) ∧
    (exp ≠ hexEncode (h (copyResult env).1) →
      (handleWithOpts ⟨some ⟨h, exp⟩, pr, sk⟩ env cl w).err = some (.structured
          ("expected " ++ exp ++ ", got " ++ hexEncode (h (copyResult env).1))
          ErrChecksumMismatch) ∧
        errorIs (.structured ("expected " ++ exp ++ ", got " ++ hexEncode (h (copyResult env).1))
          ErrChecksumMismatch) ErrChecksumMismatch = true ∧
        (handleWithOpts ⟨some ⟨h, exp⟩, pr, sk⟩ env cl w).world = { w with temp := none }) ∧
    (∀ bs, verifyChecksum none bs = none) := by
  have htemp' : ¬(env.createTempOk = false) := by simp [htemp]
  have hsync' : ¬(env.syncOk = false) := by simp [hsync]
  have hclose' : ¬(env.closeOk = false) := by simp [hclose]
  have hren' : ¬(env.renameOk = false) := by simp [hren]
  have hskip' : ¬((⟨some ⟨h, exp⟩, pr, sk⟩ : DlOptions).skipExisting = true ∧ env.stat = .ok) :=
    hskip
  refine ⟨?_, ?_, fun bs => rfl⟩
  · intro heq
    simp only [handleWithOpts, if_neg hskip', if_neg htemp', hcopy, if_neg hlen,
      verifyChecksum, heq]
    simp [hsync', hclose', hren']
  · intro hne
    have : ¬(hexEncode (h (copyResult env).1) = exp) := fun hc => hne hc.symm
    simp only [handleWithOpts, if_neg hskip', if_neg htemp', hcopy, if_neg hlen,
      verifyChecksum, if_neg this]
    exact ⟨trivial, by simp [errorIs, ErrChecksumMismatch], trivial⟩

/-- C7 witness: the identity hash over stream bytes `[1,2,3]` hex-encodes
to "010203"; that expected value succeeds, the mutated value "010204"
fails with the checksum-mismatch error and creates no destination file. -/
theorem handle_checksum_roundtrip_witness :
    (handleWithOpts ⟨some ⟨fun bs => bs, "010203"⟩, false, false⟩ envOK (-1) w0 =
      { err := none, world := { dest := some (.file [1, 2, 3]), temp := none },
        tempCreated := true, ulReads := 3 }) ∧
    ((handleWithOpts ⟨some ⟨fun bs => bs, "010204"⟩, false, false⟩ envOK (-1) w0).err =
        some (.structured "expected 010204, got 010203" ErrChecksumMismatch) ∧
      (handleWithOpts ⟨some ⟨fun bs => bs, "010204"⟩, false, false⟩ envOK (-1) w0).world.dest =
        none) := by
  constructor
  · have := (handle_checksum_roundtrip (fun bs => bs) "010203" false false envOK (-1) w0
      (by simp [envOK]) rfl (by decide) (by decide) rfl rfl rfl).1 (by decide)
    simpa [copyResult, copyUnderlyingReads, envOK] using this
  · have := ((handle_checksum_roundtrip (fun bs => bs) "010204" false false envOK (-1) w0
      (by simp [envOK]) rfl (by decide) (by decide) rfl rfl rfl).2.1 (by decide))
    refine ⟨?_, ?_⟩
    · simpa [copyResult, envOK, hexEncode, hexDigit] using this.1
    · have hw := this.2.2
      rw [hw]
      simp [w0]

/-! ## C3: which copy failures are reported as cancellation -/

/-- C3 counterexample: the transfer's scope ends by its deadline
expiring (the context reports `context.DeadlineExceeded`); `Handle`
returns the generic copying error, which does NOT match
`ErrDownloadCancelled` — contradicting the claim that any scope ending
yields the cancellation-specific kind. -/
theorem handle_deadline_not_reported_as_cancellation :
    (handle { envOK with cancelAt := some 0, ctxDeadline := true } (-1) "p" [] w0).err =
      some (.wrapf "copying file body" ContextDeadlineExceeded) ∧
    errorIs (.wrapf "copying file body" ContextDeadlineExceeded) ErrDownloadCancelled = false := by
  constructor
  · rfl
  · decide

/-- C3 amended: when the copy step fails with error `e`, `Handle`
returns the cancellation-specific kind (wrapping `ErrDownloadCancelled`,
which `errors.Is` then matches) exactly when `errors.Is(e,
context.Canceled)` holds — i.e. when the scope was cancelled; any other
copy failure, including the scope's deadline expiring
(`context.DeadlineExceeded`), is returned as the generic copying-error
wrap. -/
theorem handle_copy_error_kinds (env : Env) (cl : Int) (p : String)
    (os : List DlOption) (o : DlOptions) (w : World) (e : GoErr)
    (happly : applyOptions os DlOptions.zero = .ok o)
    (hskip : ¬(o.skipExisting = true ∧ env.stat = .ok))
    (htemp : env.createTempOk = true)
    (hcopy : (copyResult env).2 = some e) :
    (errorIs e ContextCanceled = true →
      (handle env cl p os w).err = some (.wrap2 ErrDownloadCancelled e) ∧
        errorIs (.wrap2 ErrDownloadCancelled e) ErrDownloadCancelled = true) ∧
    (errorIs e ContextCanceled = false →
      (handle env cl p os w).err = some (.wrapf "copying file body" e)) := by
  have htemp' : ¬(env.createTempOk = false) := by simp [htemp]
  constructor
  · intro hc
    simp only [handle, happly, handleWithOpts, if_neg hskip, if_neg htemp', hcopy, hc]
    exact ⟨by simp, by simp [errorIs, ErrDownloadCancelled]⟩
  · intro hc
    simp only [handle, happly, handleWithOpts, if_neg hskip, if_neg htemp', hcopy, hc]
    simp

/-- C3 amended witness: a scope cancelled mid-stream yields the wrapped
`ErrDownloadCancelled`; a reader failure unrelated to the scope yields
the generic copying error. -/
theorem handle_copy_error_kinds_witness :
    ((handle { envOK with cancelAt := some 1 } (-1) "p" [] w0).err =
        some (.wrap2 ErrDownloadCancelled ContextCanceled) ∧
      errorIs (.wrap2 ErrDownloadCancelled ContextCanceled) ErrDownloadCancelled = true) ∧
    (handle { envOK with tail := .readErr (.base "connection reset") } (-1) "p" [] w0).err =
      some (.wrapf "copying file body" (.base "connection reset")) := by
  constructor
  · exact (handle_copy_error_kinds { envOK with cancelAt := some 1 } (-1) "p" []
      DlOptions.zero w0 ContextCanceled rfl (by simp [envOK]) rfl (by decide)).1 (by decide)
  · exact (handle_copy_error_kinds { envOK with tail := .readErr (.base "connection reset") }
      (-1) "p" [] DlOptions.zero w0 (.base "connection reset") rfl (by simp [envOK]) rfl
      (by decide)).2 (by decide)

/-! ## C4: where the empty-destination check lives -/

/-- C4 counterexample: `Handle` itself, called with an empty destination
path, performs the download work before anything goes wrong: it creates
a temp file (in `filepath.Dir("") = "."`) and reads the whole stream
(three underlying reads). Only the final `os.Rename(temp, "")` fails —
renaming to an empty path fails on every platform, so the environment
models the rename as failing — and what comes back is the generic
"renaming temp file" I/O error, not a configuration error, with the
temp file cleaned up. There is no pre-I/O emptiness check inside
`Handle`. -/
theorem handle_empty_destPath_performs_reads :
    (handle { envOK with renameOk := false } (-1) "" [] w0).tempCreated = true ∧
    (handle { envOK with renameOk := false } (-1) "" [] w0).ulReads = 3 ∧
    (handle { envOK with renameOk := false } (-1) "" [] w0).err =
      some (.wrapf "renaming temp file" (.base "rename failed")) ∧
    (handle { envOK with renameOk := false } (-1) "" [] w0).world = w0 := by
  refine ⟨rfl, ?_, rfl, rfl⟩
  decide

/-- C4 amended: the empty-destination configuration error is enforced
one layer up, in `Client.Download`: an empty path is rejected there
before the request is executed or `Handle` is invoked (so before any
I/O), while every non-empty path flows through to `Handle` unchanged;
`Handle` itself performs no emptiness check. -/
theorem clientDownload_empty_destPath (env : Env) (cl : Int)
    (os : List DlOption) (w : World) :
    clientDownload "" env cl os w = .configError (.base "destPath must not be empty") ∧
    ∀ p, p ≠ "" → clientDownload p env cl os w = .ran (handle env cl p os w) := by
  constructor
  · rfl
  · intro p hp
    simp [clientDownload, hp]

/-- C4 amended witness: the rejection at the `Client.Download` layer and
the pass-through for a non-empty path, at concrete inputs. -/
theorem clientDownload_empty_destPath_witness :
    clientDownload "" envOK (-1) [] w0 = .configError (.base "destPath must not be empty") ∧
    clientDownload "p" envOK (-1) [] w0 = .ran (handle envOK (-1) "p" [] w0) :=
  ⟨(clientDownload_empty_destPath envOK (-1) [] w0).1,
    (clientDownload_empty_destPath envOK (-1) [] w0).2 "p" (by decide)⟩

/-! ## C1: atomic publish -/

/-- C1 counterexample: with skip-existing set and an existing
destination, `Handle` returns nil without reading a single byte of the
stream and with the destination's old content `[7]` intact — so a nil
return does not imply the destination equals the bytes read from the
input stream (which here are none at all). -/
theorem handle_skip_breaks_nil_means_copied :
    (handle { envOK with stat := .ok } (-1) "p" [.withSkipExisting]
        { dest := some (.file [7]), temp := none }).err = none ∧
    (handle { envOK with stat := .ok } (-1) "p" [.withSkipExisting]
        { dest := some (.file [7]), temp := none }).ulReads = 0 ∧
    (handle { envOK with stat := .ok } (-1) "p" [.withSkipExisting]
        { dest := some (.file [7]), temp := none }).world.dest ≠ some (.file []) := by
  refine ⟨rfl, rfl, ?_⟩
  decide

/-- C1 amended: for every `Handle` call starting with no temp file:
if it returns an error, the destination entry is exactly what it was
before the call and this call's temp file is gone; if it returns nil,
either the skip-existing path fired (destination and stream untouched:
zero reads) or the destination holds exactly the bytes read from the
stream, installed by the final rename; in every case no temp file
remains. -/
theorem handle_atomic_publish (env : Env) (cl : Int) (p : String)
    (os : List DlOption) (w : World) (htemp : w.temp = none) :
    ((handle env cl p os w).err.isSome → (handle env cl p os w).world = w) ∧
    ((handle env cl p os w).err = none →
      ((handle env cl p os w).world = w ∧ (handle env cl p os w).ulReads = 0) ∨
      (handle env cl p os w).world =
        { dest := some (.file (copyResult env).1), temp := none }) ∧
    (handle env cl p os w).world.temp = none := by
  have hw : ({ w with temp := none } : World) = w := by
    cases w; simp_all
  rcases happly : applyOptions os DlOptions.zero with e | o
  · simp [handle, happly, htemp]
  simp only [handle, happly]
  by_cases hskip : o.skipExisting = true ∧ env.stat = .ok
  · simp [handleWithOpts, if_pos hskip, htemp]
  by_cases hct : env.createTempOk = false
  · simp [handleWithOpts, if_neg hskip, if_pos hct, htemp]
  rcases hcopy : (copyResult env).2 with _ | e
  · rcases hv : verifyChecksum o.checksum (copyResult env).1 with _ | e'
    · by_cases hlen : cl ≥ 0 ∧ ((copyResult env).1.length : Int) ≠ cl
      · simp [handleWithOpts, if_neg hskip, if_neg hct, hcopy, if_pos hlen, hw, htemp]
      by_cases hsync : env.syncOk = false
      · simp [handleWithOpts, if_neg hskip, if_neg hct, hcopy, if_neg hlen, hv,
          if_pos hsync, hw, htemp]
      by_cases hclose : env.closeOk = false
      · simp [handleWithOpts, if_neg hskip, if_neg hct, hcopy, if_neg hlen, hv,
          if_neg hsync, if_pos hclose, hw, htemp]
      by_cases hren : env.renameOk = false
      · simp [handleWithOpts, if_neg hskip, if_neg hct, hcopy, if_neg hlen, hv,
          if_neg hsync, if_neg hclose, if_pos hren, hw, htemp]
      · simp [handleWithOpts, if_neg hskip, if_neg hct, hcopy, if_neg hlen, hv,
          if_neg hsync, if_neg hclose, if_neg hren, hw, htemp]
    · by_cases hlen : cl ≥ 0 ∧ ((copyResult env).1.length : Int) ≠ cl
      · simp [handleWithOpts, if_neg hskip, if_neg hct, hcopy, if_pos hlen, hw, htemp]
      · simp [handleWithOpts, if_neg hskip, if_neg hct, hcopy, if_neg hlen, hv, hw, htemp]
  · simp only [handleWithOpts, if_neg hskip, if_neg hct, hcopy]
    by_cases hc : errorIs e ContextCanceled = true
    · simp [hc, hw, htemp]
    · simp [hc, hw, htemp]

/-- C1 amended witness: a clean run publishes the streamed bytes; a
cancelled run leaves the (absent) destination and no temp file. -/
theorem handle_atomic_publish_witness :
    ((handle envOK (-1) "p" [] w0).err = none →
      ((handle envOK (-1) "p" [] w0).world = w0 ∧ (handle envOK (-1) "p" [] w0).ulReads = 0) ∨
      (handle envOK (-1) "p" [] w0).world =
        { dest := some (.file (copyResult envOK).1), temp := none }) ∧
    ((handle { envOK with cancelAt := some 1 } (-1) "p" [] w0).err.isSome →
      (handle { envOK with cancelAt := some 1 } (-1) "p" [] w0).world = w0) :=
  ⟨(handle_atomic_publish envOK (-1) "p" [] w0 rfl).2.1,
    (handle_atomic_publish { envOK with cancelAt := some 1 } (-1) "p" [] w0 rfl).1⟩

/-! ## C6: WithBatch inside Result.Add -/

theorem applyQOptions_batch_conflict (fid : Nat) (os : List QOption) (opts : QOptions)
    (hg : opts.group.isSome = true) (hb : ∃ m, QOption.batch m ∈ os)
    (hother : ∀ e, QOption.other (some e) ∉ os) :
    applyQOptions fid os opts = .error errWithBatchInAdd := by
  induction os generalizing opts with
  | nil => rcases hb with ⟨m, hm⟩; cases hm
  | cons o os ih =>
    cases o with
    | batch m => simp [applyQOptions, applyQOption, hg]
    | other f =>
      cases f with
      | none =>
        simp only [applyQOptions, applyQOption]
        refine ih opts hg ?_ ?_
        · rcases hb with ⟨m, hm⟩
          rcases List.mem_cons.mp hm with h | h
          · cases h
          · exact ⟨m, h⟩
        · intro e he
          exact hother e (List.mem_cons_of_mem _ he)
      | some e => exact absurd (List.mem_cons_self _ _) (hother e)

/-- C6: calling `Result.Add` with an explicit `WithBatch` among the
caller-supplied options (and the other supplied options valid) starts
no transfer and surfaces exactly one configuration error, in two
places: it is appended to the owning queue's error list — so a later
`Wait`, joining that list, matches it via `errors.Is` — and the
returned `Result` is pre-failed: its completion channel is already
closed and its `Err()` reports that same error. -/
theorem resultAdd_withBatch_conflict (parent fid : Nat) (errs : List GoErr)
    (os : List QOption) (hb : ∃ m, QOption.batch m ∈ os)
    (hother : ∀ e, QOption.other (some e) ∉ os) :
    resultAdd parent fid errs os =
      { errs := errs ++ [errWithBatchInAdd],
        res := { doneClosed := true, err := some errWithBatchInAdd },
        started := false } ∧
    ∃ j, joinErrs (errs ++ [errWithBatchInAdd]) = some j ∧
      errorIs j errWithBatchInAdd = true := by
  constructor
  · have h := applyQOptions_batch_conflict fid os { group := some parent } rfl hb hother
    simp [resultAdd, downloadAsync, h]
  · exact errorIs_joinErrs_mem (List.mem_append_right _ (List.mem_singleton_self _))

/-- C6 witness: `Add` with a benign option followed by `WithBatch(2)`
on queue 7: no transfer starts, the queue's error list gains the
conflict error, the `Result` comes back pre-failed, and the joined list
matches the error. -/
theorem resultAdd_withBatch_conflict_witness :
    resultAdd 7 9 [ErrGroupShutdown] [.other none, .batch 2] =
      { errs := [ErrGroupShutdown] ++ [errWithBatchInAdd],
        res := { doneClosed := true, err := some errWithBatchInAdd },
        started := false } ∧
    ∃ j, joinErrs ([ErrGroupShutdown] ++ [errWithBatchInAdd]) = some j ∧
      errorIs j errWithBatchInAdd = true :=
  resultAdd_withBatch_conflict 7 9 [ErrGroupShutdown] [.other none, .batch 2]
    ⟨2, by decide⟩ (by intro e he; simp at he)

/-! ## Queue transition-system lemmas -/

theorem releaseSlot_cap (s : Shared) : (releaseSlot s).cap = s.cap := by
  rcases hc : s.cap <;> simp [releaseSlot, hc]

theorem releaseSlot_shutdown (s : Shared) : (releaseSlot s).shutdown = s.shutdown := by
  rcases hc : s.cap <;> simp [releaseSlot, hc]

theorem releaseSlot_errs (s : Shared) : (releaseSlot s).errs = s.errs := by
  rcases hc : s.cap <;> simp [releaseSlot, hc]

theorem recordOpt_cap (s : Shared) (w : Option GoErr) : (recordOpt s w).cap = s.cap := by
  cases w <;> simp [recordOpt, recordErr]

theorem recordOpt_shutdown (s : Shared) (w : Option GoErr) :
    (recordOpt s w).shutdown = s.shutdown := by
  cases w <;> simp [recordOpt, recordErr]

theorem recordOpt_used (s : Shared) (w : Option GoErr) : (recordOpt s w).used = s.used := by
  cases w <;> simp [recordOpt, recordErr]

theorem TaskStep.cap_eq {s s' : Shared} {t t' : QTask} (h : TaskStep s t s' t') :
    s'.cap = s.cap := by
  cases h <;>
    simp [recordErr, recordOpt_cap, releaseSlot_cap]

theorem TaskStep.shutdown_eq {s s' : Shared} {t t' : QTask} (h : TaskStep s t s' t') :
    s'.shutdown = s.shutdown := by
  cases h <;>
    simp [recordErr, recordOpt_shutdown, releaseSlot_shutdown]

theorem TaskStep.ctxE_eq {s s' : Shared} {t t' : QTask} (h : TaskStep s t s' t') :
    t'.ctxE = t.ctxE := by
  cases h <;> rfl

theorem countP_set_add {α : Type} (p : α → Bool) {ts : List α} {i : Nat} {t : α} (t' : α)
    (h : ts.get? i = some t) :
    (ts.set i t').countP p + (if p t then 1 else 0) =
      ts.countP p + (if p t' then 1 else 0) := by
  induction ts generalizing i with
  | nil => cases h
  | cons a as ih =>
    cases i with
    | zero =>
      cases Option.some.inj h
      simp [List.countP_cons]
      omega
    | succ j =>
      have := ih h
      simp only [List.set, List.countP_cons]
      omega

theorem filterMap_set_same {α β : Type} (f : α → Option β) {ts : List α} {i : Nat} {t : α}
    (t' : α) (h : ts.get? i = some t) (hf : f t' = f t) :
    (ts.set i t').filterMap f = ts.filterMap f := by
  induction ts generalizing i with
  | nil => cases h
  | cons a as ih =>
    cases i with
    | zero =>
      cases Option.some.inj h
      simp [List.filterMap_cons, hf]
    | succ j =>
      simp only [List.set, List.filterMap_cons]
      rw [ih h]

theorem filterMap_set_perm {α β : Type} (f : α → Option β) {ts : List α} {i : Nat} {t : α}
    (t' : α) (h : ts.get? i = some t) :
    ((ts.set i t').filterMap f ++ (f t).toList).Perm (ts.filterMap f ++ (f t').toList) := by
  induction ts generalizing i with
  | nil => cases h
  | cons a as ih =>
    cases i with
    | zero =>
      cases Option.some.inj h
      simp only [List.set, List.filterMap_cons]
      rcases hft : f t with _ | b <;> rcases hft' : f t' with _ | b'
      · simp
      · simpa using (@List.perm_append_comm _ [b'] (List.filterMap f as))
      · simpa using (@List.perm_append_comm _ (List.filterMap f as) [b])
      · simp only [Option.toList_some]
        exact ((@List.perm_append_comm _ (List.filterMap f as) [b]).cons b').trans
          ((List.Perm.swap b b' _).trans
            ((@List.perm_append_comm _ [b'] (List.filterMap f as)).cons b))
    | succ j =>
      simp only [List.set, List.filterMap_cons]
      rcases hfa : f a with _ | b
      · exact ih h
      · exact (ih h).cons b

theorem gateInv_step {c c' : Shared × List QTask} (h : QStep c c') (hinv : GateInv c) :
    GateInv c' := by
  obtain ⟨s, ts⟩ := c
  obtain ⟨s', ts'⟩ := c'
  simp only [GateInv] at hinv ⊢
  cases h with
  | callShutdown =>
    intro n hn
    exact hinv n hn
  | callCancel i t hget =>
    intro n hn
    obtain ⟨h1, h2⟩ := hinv n hn
    refine ⟨?_, h2⟩
    have hc := countP_set_add isHolder { t with cancelled := true } hget
    have hsame : isHolder { t with cancelled := true } = isHolder t := rfl
    rw [hsame] at hc
    omega
  | work i t t' hget htask =>
    cases htask with
    | gateNoSem hcap hph =>
      intro n hn
      rw [hcap] at hn
      cases hn
    | gateAcquire hcap hlt hph =>
      rename_i n₀
      intro n hn
      simp only at hn
      rw [hcap] at hn
      cases Option.some.inj hn
      obtain ⟨h1, h2⟩ := hinv n₀ hcap
      have hc := countP_set_add isHolder { t with phase := .admitted } hget
      have ht : isHolder t = false := by simp [isHolder, hph]
      have ht' : isHolder { t with phase := Phase.admitted } = true := rfl
      rw [ht, ht'] at hc
      simp at hc
      simp only
      omega
    | gateCtxDone hcap hcan hph =>
      intro n hn
      simp only [recordErr] at hn ⊢
      obtain ⟨h1, h2⟩ := hinv n hn
      have hc := countP_set_add isHolder { t with phase := .done (some t.ctxE) } hget
      have ht : isHolder t = false := by simp [isHolder, hph]
      have ht' : isHolder { t with phase := Phase.done (some t.ctxE) } = false := rfl
      rw [ht, ht'] at hc
      omega
    | shutdownHit hsd hph =>
      intro n hn
      simp only [recordErr] at hn ⊢
      rw [releaseSlot_cap] at hn
      obtain ⟨h1, h2⟩ := hinv n hn
      have hc := countP_set_add isHolder { t with phase := .done (some ErrGroupShutdown) } hget
      have ht : isHolder t = true := by simp [isHolder, hph]
      have ht' : isHolder { t with phase := Phase.done (some ErrGroupShutdown) } = false := rfl
      rw [ht, ht'] at hc
      simp at hc
      simp only [releaseSlot, hn]
      omega
    | beginWork hsd hph =>
      intro n hn
      obtain ⟨h1, h2⟩ := hinv n hn
      have hc := countP_set_add isHolder { t with phase := .running } hget
      have ht : isHolder t = true := by simp [isHolder, hph]
      have ht' : isHolder { t with phase := Phase.running } = true := rfl
      rw [ht, ht'] at hc
      exact ⟨by omega, h2⟩
    | finishWork hph =>
      intro n hn
      rw [recordOpt_cap, releaseSlot_cap] at hn
      obtain ⟨h1, h2⟩ := hinv n hn
      have hc := countP_set_add isHolder { t with phase := .done t.workErr } hget
      have ht : isHolder t = true := by simp [isHolder, hph]
      have ht' : isHolder { t with phase := Phase.done t.workErr } = false := rfl
      rw [ht, ht'] at hc
      simp at hc
      rw [recordOpt_used]
      simp only [releaseSlot, hn]
      omega

theorem gateInv_reach {c c' : Shared × List QTask} (h : QReach c c') (hinv : GateInv c) :
    GateInv c' := by
  induction h with
  | refl => exact hinv
  | tail _ hstep ih => exact gateInv_step hstep ih

theorem errInv_step {c c' : Shared × List QTask} (h : QStep c c') (hinv : ErrInv c) :
    ErrInv c' := by
  obtain ⟨s, ts⟩ := c
  obtain ⟨s', ts'⟩ := c'
  simp only [ErrInv, doneErrs] at hinv ⊢
  cases h with
  | callShutdown => exact hinv
  | callCancel i t hget =>
    rw [filterMap_set_same doneErrOf { t with cancelled := true } hget rfl]
    exact hinv
  | work i t t' hget htask =>
    cases htask with
    | gateNoSem hcap hph =>
      rw [filterMap_set_same doneErrOf _ hget (by simp [doneErrOf, hph])]
      exact hinv
    | gateAcquire hcap hlt hph =>
      rw [filterMap_set_same doneErrOf _ hget (by simp [doneErrOf, hph])]
      exact hinv
    | beginWork hsd hph =>
      rw [filterMap_set_same doneErrOf _ hget (by simp [doneErrOf, hph])]
      exact hinv
    | gateCtxDone hcap hcan hph =>
      have hperm := filterMap_set_perm doneErrOf { t with phase := .done (some t.ctxE) } hget
      rw [show doneErrOf t = none by simp [doneErrOf, hph]] at hperm
      rw [show doneErrOf { t with phase := Phase.done (some t.ctxE) } = some t.ctxE from rfl]
        at hperm
      simp only [Option.toList_none, Option.toList_some, List.append_nil] at hperm
      simp only [recordErr]
      exact (hinv.append_right [t.ctxE]).trans hperm.symm
    | shutdownHit hsd hph =>
      have hperm := filterMap_set_perm doneErrOf
        { t with phase := .done (some ErrGroupShutdown) } hget
      rw [show doneErrOf t = none by simp [doneErrOf, hph]] at hperm
      rw [show doneErrOf { t with phase := Phase.done (some ErrGroupShutdown) } =
        some ErrGroupShutdown from rfl] at hperm
      simp only [Option.toList_none, Option.toList_some, List.append_nil] at hperm
      simp only [recordErr, releaseSlot_errs]
      exact (hinv.append_right [ErrGroupShutdown]).trans hperm.symm
    | finishWork hph =>
      rcases hw : t.workErr with _ | e
      · rw [filterMap_set_same doneErrOf _ hget (by simp [doneErrOf, hph])]
        simp only [recordOpt]
        rw [releaseSlot_errs]
        exact hinv
      · have hperm := filterMap_set_perm doneErrOf
          { phase := Phase.done (some e), cancelled := t.cancelled, ctxE := t.ctxE,
            workErr := some e } hget
        rw [show doneErrOf t = none by simp [doneErrOf, hph]] at hperm
        simp only [doneErrOf, Option.toList_none, Option.toList_some, List.append_nil] at hperm
        simp only [recordOpt, recordErr, releaseSlot_errs]
        exact (hinv.append_right [e]).trans hperm.symm

theorem errInv_reach {c c' : Shared × List QTask} (h : QReach c c') (hinv : ErrInv c) :
    ErrInv c' := by
  induction h with
  | refl => exact hinv
  | tail _ hstep ih => exact errInv_step hstep ih

theorem shutdownFrozen_step {i : Nat} {cE : GoErr} {c c' : Shared × List QTask}
    (h : QStep c c') (hinv : ShutdownFrozen i cE c) : ShutdownFrozen i cE c' := by
  obtain ⟨s, ts⟩ := c
  obtain ⟨s', ts'⟩ := c'
  obtain ⟨hsd, htasks⟩ := hinv
  simp only [ShutdownFrozen] at htasks ⊢
  cases h with
  | callShutdown => exact ⟨rfl, htasks⟩
  | callCancel j t hget =>
    refine ⟨hsd, ?_⟩
    intro t' hget'
    by_cases hij : j = i
    · subst hij
      rw [List.get?_set_eq, hget] at hget'
      simp only [Option.map_some] at hget'
      cases Option.some.inj hget'
      obtain ⟨hce, hph⟩ := htasks t hget
      exact ⟨hce, hph⟩
    · rw [List.get?_set_ne _ _ hij] at hget'
      exact htasks t' hget'
  | work j t t' hget htask =>
    refine ⟨by rw [htask.shutdown_eq]; exact hsd, ?_⟩
    intro t'' hget''
    by_cases hij : j = i
    · subst hij
      rw [List.get?_set_eq, hget] at hget''
      simp only [Option.map_some] at hget''
      cases Option.some.inj hget''
      obtain ⟨hce, hph⟩ := htasks t hget
      cases htask with
      | gateNoSem hcap hp => exact ⟨hce, Or.inr (Or.inl rfl)⟩
      | gateAcquire hcap hlt hp => exact ⟨hce, Or.inr (Or.inl rfl)⟩
      | gateCtxDone hcap hcan hp =>
        refine ⟨hce, Or.inr (Or.inr (Or.inr ?_))⟩
        show Phase.done (some t.ctxE) = Phase.done (some cE)
        rw [hce]
      | shutdownHit hs hp => exact ⟨hce, Or.inr (Or.inr (Or.inl rfl))⟩
      | beginWork hs hp =>
        rw [hsd] at hs
        cases hs
      | finishWork hp =>
        rcases hph with
          hx | hx | hx | hx <;> rw [hp] at hx <;> cases hx
    · rw [List.get?_set_ne _ _ hij] at hget''
      exact htasks t'' hget''

theorem shutdownFrozen_reach {i : Nat} {cE : GoErr} {c c' : Shared × List QTask}
    (h : QReach c c') (hinv : ShutdownFrozen i cE c) : ShutdownFrozen i cE c' := by
  induction h with
  | refl => exact hinv
  | tail _ hstep ih => exact shutdownFrozen_step hstep ih

theorem qstep_cap {c c' : Shared × List QTask} (h : QStep c c') : c'.1.cap = c.1.cap := by
  obtain ⟨s, ts⟩ := c
  obtain ⟨s', ts'⟩ := c'
  cases h with
  | work i t t' hget htask => exact htask.cap_eq
  | callShutdown => rfl
  | callCancel i t hget => rfl

theorem qreach_cap {c c' : Shared × List QTask} (h : QReach c c') : c'.1.cap = c.1.cap := by
  induction h with
  | refl => rfl
  | tail _ hstep ih => rw [qstep_cap hstep, ih]

theorem qstep_cons (x : QTask) {c c' : Shared × List QTask} (h : QStep c c') :
    QStep (c.1, x :: c.2) (c'.1, x :: c'.2) := by
  obtain ⟨s, ts⟩ := c
  obtain ⟨s', ts'⟩ := c'
  cases h with
  | work i t t' hget htask => exact QStep.work (i + 1) t t' hget htask
  | callShutdown => exact QStep.callShutdown
  | callCancel i t hget => exact QStep.callCancel (i + 1) t hget

theorem qreach_cons (x : QTask) {c c' : Shared × List QTask} (h : QReach c c') :
    QReach (c.1, x :: c.2) (c'.1, x :: c'.2) := by
  induction h with
  | refl => exact Relation.ReflTransGen.refl
  | tail hr hstep ih => exact Relation.ReflTransGen.tail ih (qstep_cons x hstep)

theorem run_all {s : Shared} (hcap : s.cap = none) (hsd : s.shutdown = false)
    (ts : List QTask) (hts : ∀ t ∈ ts, t.phase = .gate) :
    QReach (s, ts) (s, ts.map (fun t => { t with phase := .running })) := by
  induction ts with
  | nil => exact Relation.ReflTransGen.refl
  | cons t rest ih =>
    have h1 : QStep (s, t :: rest) (s, { t with phase := .admitted } :: rest) :=
      QStep.work 0 t _ rfl (TaskStep.gateNoSem hcap (hts t (List.mem_cons_self t rest)))
    have h2 : QStep (s, { t with phase := .admitted } :: rest)
        (s, { t with phase := .running } :: rest) :=
      QStep.work 0 _ _ rfl (TaskStep.beginWork hsd rfl)
    have h3 := ih (fun t' ht' => hts t' (List.mem_cons_of_mem t ht'))
    have h4 := qreach_cons { t with phase := .running } h3
    exact Relation.ReflTransGen.head h1 (Relation.ReflTransGen.head h2 h4)

/-- C9: for a queue created with a positive limit, no reachable state of
the transition system ever has more than that many tasks running their
work functions simultaneously; for a non-positive limit `NewQueue`
installs no semaphore, and from any batch of freshly launched tasks the
state in which every one of them runs simultaneously is reachable. -/
theorem queue_concurrency_bound (m : Int) (ts : List QTask)
    (hts : ∀ t ∈ ts, t.phase = .gate) :
    (∀ n, (newQueue m).cap = some n → ∀ c, QReach (newQueue m, ts) c →
      c.2.countP isRunning ≤ n) ∧
    (m ≤ 0 → (newQueue m).cap = none ∧
      QReach (newQueue m, ts) (newQueue m, ts.map (fun t => { t with phase := .running }))) := by
  constructor
  · intro n hcap c hreach
    have hinv₀ : GateInv (newQueue m, ts) := by
      intro n' hn'
      simp only [newQueue] at hn' ⊢
      constructor
      · symm
        rw [List.countP_eq_zero]
        intro t ht
        simp [isHolder, hts t ht]
      · exact Nat.zero_le _
    have hinv := gateInv_reach hreach hinv₀
    have hcapc : c.1.cap = some n := by rw [qreach_cap hreach]; exact hcap
    obtain ⟨h1, h2⟩ := hinv n hcapc
    have hmono : c.2.countP isRunning ≤ c.2.countP isHolder := by
      apply List.countP_mono_left
      intro t _ hr
      cases hp : t.phase <;> simp [isRunning, hp] at hr ⊢ <;> simp [isHolder, hp]
    omega
  · intro hm
    have hcap : (newQueue m).cap = none := by
      simp only [newQueue, newQueueCap]
      rw [if_neg (by omega)]
    exact ⟨hcap, run_all hcap rfl ts hts⟩

/-- C9 witness: with limit 1 and one fresh task, the initial state has
no running task (0 ≤ 1); with limit 0 (no gate) the one-task batch
reaches the state where the task runs. -/
theorem queue_concurrency_bound_witness :
    List.countP isRunning [gateTask none] ≤ 1 ∧
    QReach (newQueue 0, [gateTask none])
      (newQueue 0, [{ gateTask none with phase := .running }]) := by
  have hts : ∀ t ∈ [gateTask none], t.phase = Phase.gate := by
    intro t ht
    simp only [List.mem_singleton] at ht
    subst ht
    rfl
  constructor
  · exact (queue_concurrency_bound 1 [gateTask none] hts).1 1 (by decide) _
      Relation.ReflTransGen.refl
  · exact ((queue_concurrency_bound 0 [gateTask none] hts).2 (by decide)).2

/-! ## C2: shutdown semantics -/

/-- C2 counterexample: a reachable state in which `Shutdown()` has
already been called, the single gate slot is held by a running task,
and a second task waits at the gate; from this state no step whatsoever
moves the waiting task out of the gate — in particular it does not fail
with the group-shutdown error. The shutdown does not release a
gate-waiting transfer; only a freed slot or its own cancellation can. -/
theorem queue_shutdown_leaves_gate_waiter_blocked :
    QReach
      ({ cap := some 1, used := 0, shutdown := false, errs := [] },
        [gateTask none, gateTask none])
      ({ cap := some 1, used := 1, shutdown := true, errs := [] },
        [{ gateTask none with phase := .running }, gateTask none]) ∧
    ¬ ∃ s' ts',
      QStep ({ cap := some 1, used := 1, shutdown := true, errs := [] },
          [{ gateTask none with phase := .running }, gateTask none]) (s', ts') ∧
        (ts'.get? 1).map QTask.phase ≠ some Phase.gate := by
  constructor
  · refine Relation.ReflTransGen.head
      (QStep.work 0 (gateTask none) _ rfl (@TaskStep.gateAcquire _ _ 1 rfl (by decide) rfl))
      (Relation.ReflTransGen.head
        (QStep.work 0 _ _ rfl (TaskStep.beginWork rfl rfl))
        (Relation.ReflTransGen.head QStep.callShutdown Relation.ReflTransGen.refl))
  · rintro ⟨s', ts', hstep, hne⟩
    cases hstep with
    | callShutdown => exact hne rfl
    | callCancel i t hget =>
      match i, hget with
      | 0, hget => exact hne rfl
      | 1, hget =>
        cases Option.some.inj hget
        exact hne rfl
    | work i t t' hget htask =>
      match i, hget with
      | 0, hget =>
        cases Option.some.inj hget
        cases htask with
        | gateNoSem hcap hph => cases hph
        | gateAcquire hcap hlt hph => cases hph
        | gateCtxDone hcap hcan hph => cases hph
        | shutdownHit hsd hph => cases hph
        | beginWork hsd hph => cases hph
        | finishWork hph => exact hne rfl
      | 1, hget =>
        cases Option.some.inj hget
        cases htask with
        | gateNoSem hcap hph => cases hcap
        | gateAcquire hcap hlt hph =>
          cases Option.some.inj hcap
          exact absurd hlt (by decide)
        | gateCtxDone hcap hcan hph => cases hcan
        | shutdownHit hsd hph => cases hph
        | beginWork hsd hph => cases hph
        | finishWork hph => cases hph

/-- C2 amended: once the shutdown flag is set, a task that has passed
the gate (reached the post-admission shutdown check) can only step to
exiting with the group-shutdown error — that step exists and is the
only one — and any task that has not yet passed that check (at the
gate or just admitted) can never reach the running phase in any
subsequent execution, and can only terminate with the group-shutdown
error or its own context's cancellation error; its work function never
runs. A task blocked at the gate, however, keeps waiting (see the
counterexample): shutdown itself does not release it. -/
theorem queue_shutdown_semantics :
    (∀ s t, s.shutdown = true → t.phase = .admitted →
      TaskStep s t (recordErr (releaseSlot s) ErrGroupShutdown)
        { t with phase := .done (some ErrGroupShutdown) } ∧
      ∀ s' t', TaskStep s t s' t' →
        t' = { t with phase := .done (some ErrGroupShutdown) }) ∧
    (∀ i s ts t c', s.shutdown = true → ts.get? i = some t →
      (t.phase = .gate ∨ t.phase = .admitted) → QReach (s, ts) c' →
      ∀ t', c'.2.get? i = some t' → t'.phase ≠ .running ∧
        ∀ e, t'.phase = .done e → e = some ErrGroupShutdown ∨ e = some t.ctxE) := by
  constructor
  · intro s t hsd hph
    refine ⟨TaskStep.shutdownHit hsd hph, ?_⟩
    intro s' t' hstep
    cases hstep with
    | gateNoSem hcap hp => rw [hph] at hp; cases hp
    | gateAcquire hcap hlt hp => rw [hph] at hp; cases hp
    | gateCtxDone hcap hcan hp => rw [hph] at hp; cases hp
    | shutdownHit hs hp => rfl
    | beginWork hs hp => rw [hsd] at hs; cases hs
    | finishWork hp => rw [hph] at hp; cases hp
  · intro i s ts t c' hsd hget hph hreach t' hget'
    have hfrozen₀ : ShutdownFrozen i t.ctxE (s, ts) := by
      refine ⟨hsd, ?_⟩
      intro t₂ hget₂
      rw [hget] at hget₂
      cases Option.some.inj hget₂
      rcases hph with h | h
      · exact ⟨rfl, Or.inl h⟩
      · exact ⟨rfl, Or.inr (Or.inl h)⟩
    have hfrozen := shutdownFrozen_reach hreach hfrozen₀
    obtain ⟨hce, hp⟩ := hfrozen.2 t' hget'
    constructor
    · rcases hp with h | h | h | h <;> rw [h] <;> intro hx <;> cases hx
    · intro e he
      rcases hp with h | h | h | h <;> rw [he] at h
      · cases h
      · cases h
      · exact Or.inl (by cases Phase.done.inj h; rfl)
      · refine Or.inr ?_
        cases Phase.done.inj h
        rfl

/-- C2 amended witness: an admitted task under a shut-down queue with no
gate steps to the group-shutdown failure, and from that one-task state
the task (still at the shutdown check) can never be found running. -/
theorem queue_shutdown_semantics_witness :
    (TaskStep { cap := none, used := 0, shutdown := true, errs := [] }
      { gateTask none with phase := .admitted }
      (recordErr (releaseSlot { cap := none, used := 0, shutdown := true, errs := [] })
        ErrGroupShutdown)
      { { gateTask none with phase := .admitted } with
          phase := .done (some ErrGroupShutdown) }) ∧
    ({ gateTask none with phase := .admitted } : QTask).phase ≠ Phase.running := by
  constructor
  · exact ((queue_shutdown_semantics).1
      { cap := none, used := 0, shutdown := true, errs := [] }
      { gateTask none with phase := .admitted } rfl rfl).1
  · exact ((queue_shutdown_semantics).2 0
      { cap := none, used := 0, shutdown := true, errs := [] }
      [{ gateTask none with phase := .admitted }]
      { gateTask none with phase := .admitted } _ rfl rfl (Or.inr rfl)
      Relation.ReflTransGen.refl
      { gateTask none with phase := .admitted } rfl).1

/-! ## C5: Wait returns every recorded error, joined -/

/-- C5: once every task of a batch launched on a fresh queue has
completed (the condition under which `Wait`, having blocked on the
completion counter, returns), the joined error it returns is nil
exactly when no task recorded a non-nil error, and when tasks did fail,
the joined value matches — via `errors.Is` — the terminal error of
every failed task individually, with none dropped. -/
theorem queue_wait_aggregation (m : Int) (ts : List QTask) (c : Shared × List QTask)
    (hts : ∀ t ∈ ts, t.phase = .gate)
    (hreach : QReach (newQueue m, ts) c)
    (hdone : ∀ t ∈ c.2, ∃ e, t.phase = .done e) :
    (joinErrs c.1.errs = none ↔ ∀ t ∈ c.2, doneErrOf t = none) ∧
    (∀ t ∈ c.2, ∀ e, t.phase = .done (some e) →
      ∃ j, joinErrs c.1.errs = some j ∧ errorIs j e = true) := by
  have hinv₀ : ErrInv (newQueue m, ts) := by
    simp only [ErrInv, doneErrs, newQueue]
    rw [List.filterMap_eq_nil_iff.mpr (fun t ht => by simp [doneErrOf, hts t ht])]
  have hinv := errInv_reach hreach hinv₀
  simp only [ErrInv] at hinv
  constructor
  · rw [joinErrs_eq_none_iff]
    constructor
    · intro h
      rw [h] at hinv
      have : doneErrs c.2 = [] := hinv.symm.eq_nil
      rw [doneErrs, List.filterMap_eq_nil_iff] at this
      exact this
    · intro h
      have : doneErrs c.2 = [] := by
        rw [doneErrs, List.filterMap_eq_nil_iff]
        exact h
      rw [this] at hinv
      exact hinv.eq_nil
  · intro t ht e he
    have hmem : e ∈ doneErrs c.2 := by
      rw [doneErrs, List.mem_filterMap]
      exact ⟨t, ht, by simp [doneErrOf, he]⟩
    exact errorIs_joinErrs_mem (hinv.mem_iff.mpr hmem)

/-- C5 witness: two unbounded tasks, one failing with "boom", the other
succeeding; after both finish, the joined result is non-nil and
matches the failing task's error, and it would be nil only if no task
had failed. -/
theorem queue_wait_aggregation_witness :
    ((joinErrs [GoErr.base "boom"] = none ↔
      ∀ t ∈ [finishedTask (some (.base "boom")), finishedTask none], doneErrOf t = none) ∧
    (∀ t ∈ [finishedTask (some (.base "boom")), finishedTask none],
      ∀ e, t.phase = .done (some e) →
        ∃ j, joinErrs [GoErr.base "boom"] = some j ∧ errorIs j e = true)) ∧
    joinErrs [GoErr.base "boom"] = some (.base "boom") := by
  constructor
  · have hts : ∀ t ∈ [gateTask (some (GoErr.base "boom")), gateTask none],
        t.phase = Phase.gate := by
      intro t ht
      rcases List.mem_cons.mp ht with h | h
      · rw [h]; rfl
      · rw [List.mem_singleton.mp h]; rfl
    have hchain : QReach
        (newQueue 0, [gateTask (some (GoErr.base "boom")), gateTask none])
        ({ cap := none, used := 0, shutdown := false, errs := [GoErr.base "boom"] },
          [finishedTask (some (.base "boom")), finishedTask none]) := by
      refine Relation.ReflTransGen.head
        (QStep.work 0 (gateTask (some (GoErr.base "boom"))) _ rfl
          (TaskStep.gateNoSem (by decide) rfl)) ?_
      refine Relation.ReflTransGen.head
        (QStep.work 0 _ _ rfl (TaskStep.beginWork (by decide) rfl)) ?_
      refine Relation.ReflTransGen.head
        (QStep.work 0 _ _ rfl (@TaskStep.finishWork _
          { gateTask (some (GoErr.base "boom")) with phase := .running } rfl)) ?_
      refine Relation.ReflTransGen.head
        (QStep.work 1 (gateTask none) _ rfl (TaskStep.gateNoSem (by decide) rfl)) ?_
      refine Relation.ReflTransGen.head
        (QStep.work 1 _ _ rfl (TaskStep.beginWork (by decide) rfl)) ?_
      refine Relation.ReflTransGen.head
        (QStep.work 1 _ _ rfl (@TaskStep.finishWork _
          { gateTask none with phase := .running } rfl)) ?_
      exact Relation.ReflTransGen.refl
    have hdone : ∀ t ∈ [finishedTask (some (GoErr.base "boom")), finishedTask none],
        ∃ e, t.phase = Phase.done e := by
      intro t ht
      rcases List.mem_cons.mp ht with h | h
      · exact ⟨some (.base "boom"), by rw [h]; rfl⟩
      · exact ⟨none, by rw [List.mem_singleton.mp h]; rfl⟩
    exact queue_wait_aggregation 0 [gateTask (some (.base "boom")), gateTask none]
      ({ cap := none, used := 0, shutdown := false, errs := [GoErr.base "boom"] },
        [finishedTask (some (.base "boom")), finishedTask none]) hts hchain hdone
  · rfl

end Httper
